import Mathlib

/-!
# Verification of the client-side asymmetric key lifecycle

This development shallowly embeds the crypto-service subsystem of the
repository (the `CryptoUtils` class of the file-encryption module, the
`CryptoService` class of `cryptoService.ts`, the key-registration portion of
`CreateAccount.tsx`, and the server-side `POST /public` handler of
`keyRouter.js` with its `PublicKey` Mongoose schema) and proves the spec's
testable properties about it.

Platform cryptographic primitives (WebCrypto PBKDF2, AES-GCM, RSA-OAEP and
the node `crypto` SHA-256 hash) are not code of the repository; they are
modelled abstractly by their documented contracts, as ideal primitives:

* PBKDF2 key derivation is modelled as the injective pairing of the password
  with the salt (a deterministic, collision-free key-derivation function).
* An AES-GCM ciphertext is modelled as an opaque value remembering the key
  and IV it was produced under together with the plaintext; authenticated
  decryption succeeds exactly when the same key and IV are supplied, and
  fails with an authentication failure otherwise.
* An RSA-OAEP key pair is identified by a single abstract value shared by
  both halves; block encryption of a chunk of at most 190 bytes yields a
  256-entry block tagged with the key, and block decryption demands a
  256-entry block tagged with the matching key.
* The SHA-256 fingerprint of a PEM text is modelled as an injective
  (collision-free) function of the text.

Byte strings are `List Nat`; the randomness the source draws from
`window.crypto.getRandomValues` (salts, IVs) and the clock (`Date.now()`)
are explicit parameters, since the source treats them as ambient inputs.
-/

namespace SafeCrypto

/-- The error taxonomy of the spec (§7): key-format, authentication,
decryption, format and storage failures. -/
inductive CryptoError where
  | keyFormatError
  | authenticationFailure
  | decryptionFailure
  | formatError
  | storageFailure
  deriving DecidableEq, Repr

/-- An AES-GCM-capable symmetric key as produced by PBKDF2.  Modelled as the
pair of the password and the salt it was derived from: the ideal
deterministic, collision-free key-derivation function. -/
structure DerivedKey where
  password : String
  salt : List Nat
  deriving DecidableEq, Repr

/-- Embeds `deriveKeyFromPassword` (CryptoUtils / CryptoService): PBKDF2 with
100,000 iterations of SHA-256 over the UTF-8 password bytes and the salt,
yielding a 256-bit AES-GCM key.  The derivation is deterministic in
(password, salt); the iteration count and hash are constants of the source
and do not vary, so the model keeps only the two varying inputs. -/
def deriveKeyFromPassword (password : String) (salt : List Nat) : DerivedKey :=
  ⟨password, salt⟩

/-- An AES-GCM ciphertext, modelled opaquely as the key and IV it was
produced under together with the plaintext (ideal authenticated
encryption). -/
structure GcmCiphertext where
  key : DerivedKey
  iv : List Nat
  data : List Nat
  deriving DecidableEq, Repr

/-- The platform's `crypto.subtle.encrypt {name: AES-GCM}` primitive. -/
def aesGcmEncrypt (key : DerivedKey) (iv : List Nat) (plain : List Nat) :
    GcmCiphertext :=
  ⟨key, iv, plain⟩

/-- The platform's `crypto.subtle.decrypt {name: AES-GCM}` primitive:
succeeds exactly when the supplied key and IV are the ones the ciphertext
was produced under (the authentication-tag check), and otherwise fails with
an authentication failure. -/
def aesGcmDecrypt (key : DerivedKey) (iv : List Nat) (ct : GcmCiphertext) :
    Except CryptoError (List Nat) :=
  if ct.key = key ∧ ct.iv = iv then .ok ct.data
  else .error .authenticationFailure

/-- A private key is identified with its PKCS8 byte encoding, so
`crypto.subtle.exportKey (pkcs8)` is the identity. -/
def exportPkcs8 (privateKey : List Nat) : List Nat := privateKey

/-- `crypto.subtle.importKey (pkcs8)`: in the model every byte list is the
encoding of a key, so the import succeeds and is the identity. -/
def importPkcs8 (bytes : List Nat) : Except CryptoError (List Nat) :=
  .ok bytes

/-- The persisted shape produced by `encryptPrivateKey` (CryptoUtils lines
89–116): the AES-GCM ciphertext of the PKCS8 private-key bytes together with
the salt and IV used. -/
structure EncryptedPrivateKey where
  encrypted : GcmCiphertext
  salt : List Nat
  iv : List Nat
  deriving DecidableEq, Repr

/-- Embeds `CryptoUtils.encryptPrivateKey` / `CryptoService.encryptPrivateKey`:
derive an AES-GCM key from the password and a fresh 16-byte salt, export the
private key as PKCS8, and authenticated-encrypt it under a fresh 12-byte IV.
The source draws `salt` and `iv` from `window.crypto.getRandomValues`; here
they are the explicit randomness parameters. -/
def encryptPrivateKey (privateKey : List Nat) (password : String)
    (salt iv : List Nat) : EncryptedPrivateKey :=
  let derivedKey := deriveKeyFromPassword password salt
  let exportedKey := exportPkcs8 privateKey
  let encrypted := aesGcmEncrypt derivedKey iv exportedKey
  ⟨encrypted, salt, iv⟩

/-- Embeds `CryptoUtils.decryptPrivateKey` (lines 121–147): re-derive the
AES-GCM key from the stored salt and the supplied password,
authenticated-decrypt with the stored IV, and import the resulting PKCS8
bytes.  Every failure surfaces as a thrown error in the source; here as
`Except.error`. -/
def decryptPrivateKey (encryptedData : EncryptedPrivateKey)
    (password : String) : Except CryptoError (List Nat) := do
  let derivedKey := deriveKeyFromPassword password encryptedData.salt
  let decrypted ← aesGcmDecrypt derivedKey encryptedData.iv
    encryptedData.encrypted
  importPkcs8 decrypted

/-- C4: wrapping a private key under a password and unwrapping with the same
password returns exactly the original key bytes, for every key, password,
and every fresh 16-byte salt and 12-byte IV the wrap drew. -/
theorem decryptPrivateKey_encryptPrivateKey (k : List Nat) (p : String)
    (salt iv : List Nat) (_hsalt : salt.length = 16) (_hiv : iv.length = 12) :
    decryptPrivateKey (encryptPrivateKey k p salt iv) p = .ok k := by
  simp [decryptPrivateKey, encryptPrivateKey, aesGcmDecrypt, aesGcmEncrypt,
    exportPkcs8, importPkcs8, Bind.bind, Except.bind]

/-- Witness for C4 at a concrete key, password, salt and IV. -/
theorem decryptPrivateKey_encryptPrivateKey_witness :
    (List.replicate 16 7).length = 16 ∧ (List.replicate 12 9).length = 12 ∧
    decryptPrivateKey
      (encryptPrivateKey [1, 2, 3] "Tr0ub4dor" (List.replicate 16 7)
        (List.replicate 12 9)) "Tr0ub4dor" = .ok [1, 2, 3] :=
  ⟨by decide, by decide,
    decryptPrivateKey_encryptPrivateKey [1, 2, 3] "Tr0ub4dor"
      (List.replicate 16 7) (List.replicate 12 9) (by decide) (by decide)⟩

/-- C5: unwrapping with a different password than the one used to wrap fails
with an authentication failure (the AES-GCM tag check): it never silently
returns a wrong or empty key. -/
theorem decryptPrivateKey_wrong_password (k : List Nat) (p1 p2 : String)
    (salt iv : List Nat) (h : p1 ≠ p2) :
    decryptPrivateKey (encryptPrivateKey k p1 salt iv) p2 =
      .error .authenticationFailure := by
  simp [decryptPrivateKey, encryptPrivateKey, aesGcmDecrypt, aesGcmEncrypt,
    exportPkcs8, importPkcs8, deriveKeyFromPassword, Bind.bind, Except.bind, h]

/-- Witness for C5 at a concrete key and two distinct passwords. -/
theorem decryptPrivateKey_wrong_password_witness :
    "hunter2" ≠ "hunter3" ∧
    decryptPrivateKey (encryptPrivateKey [4, 5] "hunter2" [0] [1]) "hunter3" =
      .error .authenticationFailure :=
  ⟨by decide,
    decryptPrivateKey_wrong_password [4, 5] "hunter2" "hunter3" [0] [1]
      (by decide)⟩

/-- The platform's `crypto.subtle.encrypt {name: RSA-OAEP}` primitive for a
2048-bit key.  A key pair is identified by one abstract value `pub` shared by
both halves.  A chunk of at most 190 entries is padded into a 256-entry block
tagged with the key (the OAEP padding detail is immaterial; only the block
length and invertibility are used). -/
def rsaOaepEncryptBlock (pub : Nat) (chunk : List Nat) : List Nat :=
  chunk.length :: pub :: (chunk ++ List.replicate (254 - chunk.length) 0)

/-- The platform's `crypto.subtle.decrypt {name: RSA-OAEP}` primitive:
demands a 256-entry block produced under the matching key and recovers the
chunk; any other input (wrong length, wrong key) fails, which the source
surfaces as a thrown error — the spec's DecryptionFailure. -/
def rsaOaepDecryptBlock (priv : Nat) (block : List Nat) :
    Except CryptoError (List Nat) :=
  match block with
  | n :: k :: rest =>
    if n ≤ 190 ∧ k = priv ∧ rest.length = 254 then .ok (rest.take n)
    else .error .decryptionFailure
  | _ => .error .decryptionFailure

/-- Embeds `CryptoUtils.encryptFile` (lines 345–381): the loop
`for (i = 0; i < byteLength; i += 190)` encrypts successive slices of at
most 190 bytes and concatenates the encrypted blocks in order.  When the
payload is empty the loop body never runs and the result is empty. -/
def encryptFile (pub : Nat) (data : List Nat) : List Nat :=
  if h : data = [] then []
  else rsaOaepEncryptBlock pub (data.take 190) ++ encryptFile pub (data.drop 190)
termination_by data.length
decreasing_by
  simp only [List.length_drop]
  have := List.length_pos.mpr h
  omega

/-- Embeds `CryptoUtils.decryptFile` (lines 386–421): the loop
`for (i = 0; i < length; i += 256)` decrypts successive slices of at most
256 bytes and concatenates the plaintext chunks in order; the first failing
slice aborts the whole decryption (the thrown error propagates). -/
def decryptFile (priv : Nat) (encryptedData : List Nat) :
    Except CryptoError (List Nat) :=
  if h : encryptedData = [] then .ok []
  else do
    let chunk ← rsaOaepDecryptBlock priv (encryptedData.take 256)
    let rest ← decryptFile priv (encryptedData.drop 256)
    .ok (chunk ++ rest)
termination_by encryptedData.length
decreasing_by
  simp only [List.length_drop]
  have := List.length_pos.mpr h
  omega

/-- An encrypted block is always 256 entries long (for any chunk the source
can produce, i.e. of length at most 254). -/
theorem rsaOaepEncryptBlock_length (pub : Nat) (chunk : List Nat)
    (h : chunk.length ≤ 254) :
    (rsaOaepEncryptBlock pub chunk).length = 256 := by
  simp [rsaOaepEncryptBlock]
  omega

/-- Block round trip: decrypting an encrypted block with the matching key
recovers the chunk. -/
theorem rsaOaepDecryptBlock_encryptBlock (key : Nat) (chunk : List Nat)
    (h : chunk.length ≤ 190) :
    rsaOaepDecryptBlock key (rsaOaepEncryptBlock key chunk) = .ok chunk := by
  simp [rsaOaepDecryptBlock, rsaOaepEncryptBlock]
  constructor <;> omega

/-- Auxiliary induction (on a length bound) for the ciphertext-length
invariant of `encryptFile`. -/
theorem encryptFile_length_aux (pub : Nat) :
    ∀ (n : Nat) (m : List Nat), m.length ≤ n →
      (encryptFile pub m).length = (m.length + 189) / 190 * 256 := by
  intro n
  induction n with
  | zero =>
    intro m hm
    have hnil : m = [] := List.eq_nil_of_length_eq_zero (Nat.le_zero.mp hm)
    subst hnil
    simp [encryptFile]
  | succ n ih =>
    intro m hm
    by_cases h : m = []
    · subst h; simp [encryptFile]
    · have hpos : 0 < m.length := List.length_pos.mpr h
      rw [encryptFile]
      rw [dif_neg h]
      rw [List.length_append]
      rw [rsaOaepEncryptBlock_length pub (m.take 190)
        (by rw [List.length_take]; omega)]
      rw [ih (m.drop 190) (by rw [List.length_drop]; omega)]
      rw [List.length_drop]
      omega

/-- C2 (amended): the ciphertext of `encryptFile` is exactly
`ceil(len(m) / 190) * 256` entries long — `(len(m) + 189) / 190 * 256` in
natural-number arithmetic.  For a nonempty payload this is the claimed
`ceil(max(1, len(m)) / 190) * 256`; for the empty payload the chunk loop
never runs and the output is empty, not one 256-byte block. -/
theorem encryptFile_length (pub : Nat) (m : List Nat) :
    (encryptFile pub m).length = (m.length + 189) / 190 * 256 :=
  encryptFile_length_aux pub m.length m (le_refl _)

/-- C2 counterexample: on the empty payload `encryptFile` outputs the empty
list, of length 0, not the single 256-byte encrypted empty chunk the claim
requires (`ceil(max(1, 0) / 190) * 256 = 256`). -/
theorem encryptFile_empty_counterexample :
    encryptFile 0 [] = [] ∧
    (encryptFile 0 []).length ≠
      (max 1 (List.length ([] : List Nat)) + 189) / 190 * 256 := by
  constructor
  · simp [encryptFile]
  · simp [encryptFile]

/-- Auxiliary induction (on a length bound) for the chunked round trip. -/
theorem decryptFile_encryptFile_aux (key : Nat) :
    ∀ (n : Nat) (m : List Nat), m.length ≤ n →
      decryptFile key (encryptFile key m) = .ok m := by
  intro n
  induction n with
  | zero =>
    intro m hm
    have hnil : m = [] := List.eq_nil_of_length_eq_zero (Nat.le_zero.mp hm)
    subst hnil
    simp [encryptFile, decryptFile]
  | succ n ih =>
    intro m hm
    by_cases h : m = []
    · subst h; simp [encryptFile, decryptFile]
    · have hpos : 0 < m.length := List.length_pos.mpr h
      have htake : (m.take 190).length ≤ 190 := by
        rw [List.length_take]; omega
      have hblock : (rsaOaepEncryptBlock key (m.take 190)).length = 256 :=
        rsaOaepEncryptBlock_length key (m.take 190) (by omega)
      have hbne : rsaOaepEncryptBlock key (m.take 190) ≠ [] := by
        intro hc
        rw [hc] at hblock
        simp at hblock
      rw [encryptFile, dif_neg h]
      rw [decryptFile, dif_neg (List.append_ne_nil_of_left_ne_nil hbne _)]
      rw [show (256 : Nat) = (rsaOaepEncryptBlock key (m.take 190)).length from
        hblock.symm]
      rw [List.take_left, List.drop_left]
      rw [rsaOaepDecryptBlock_encryptBlock key (m.take 190) htake]
      rw [ih (m.drop 190) (by rw [List.length_drop]; omega)]
      simp [Bind.bind, Except.bind, List.take_append_drop]

/-- C3: the Chunked Payload Cipher round-trips: decrypting the encryption of
any byte payload `m` (empty, 190-byte and 191-byte boundary cases included)
under a matching key pair returns exactly `m`. -/
theorem decryptFile_encryptFile (key : Nat) (m : List Nat) :
    decryptFile key (encryptFile key m) = .ok m :=
  decryptFile_encryptFile_aux key m.length m (le_refl _)

/-- A block decryption either succeeds or fails with a DecryptionFailure —
the only error the source's per-chunk decrypt surfaces. -/
theorem rsaOaepDecryptBlock_ok_or_decryptionFailure (priv : Nat)
    (block : List Nat) :
    (∃ v, rsaOaepDecryptBlock priv block = .ok v) ∨
      rsaOaepDecryptBlock priv block = .error .decryptionFailure := by
  unfold rsaOaepDecryptBlock
  split
  · split
    · exact Or.inl ⟨_, rfl⟩
    · exact Or.inr rfl
  · exact Or.inr rfl

/-- A block whose length is not exactly 256 never decrypts: the platform's
RSA-OAEP decrypt demands a full modulus-length ciphertext block. -/
theorem rsaOaepDecryptBlock_wrong_length (priv : Nat) (block : List Nat)
    (h : block.length ≠ 256) :
    rsaOaepDecryptBlock priv block = .error .decryptionFailure := by
  unfold rsaOaepDecryptBlock
  split
  · rw [if_neg]
    intro hcon
    apply h
    simp [hcon.2.2]
  · rfl

/-- Auxiliary induction for C6: a ciphertext whose length is not an exact
multiple of 256 never decrypts — the trailing short block (or an earlier bad
block) fails as a DecryptionFailure. -/
theorem decryptFile_not_mod256_aux (priv : Nat) :
    ∀ (n : Nat) (c : List Nat), c.length ≤ n → c.length % 256 ≠ 0 →
      decryptFile priv c = .error .decryptionFailure := by
  intro n
  induction n with
  | zero =>
    intro c hc hmod
    have hnil : c = [] := List.eq_nil_of_length_eq_zero (Nat.le_zero.mp hc)
    subst hnil
    simp at hmod
  | succ n ih =>
    intro c hc hmod
    have hne : c ≠ [] := by
      intro hcon; subst hcon; simp at hmod
    rw [decryptFile, dif_neg hne]
    by_cases hlen : c.length < 256
    · have htake : c.take 256 = c := List.take_of_length_le (by omega)
      rw [htake]
      rw [rsaOaepDecryptBlock_wrong_length priv c (by omega)]
      rfl
    · rcases rsaOaepDecryptBlock_ok_or_decryptionFailure priv (c.take 256) with
        ⟨v, hv⟩ | hv
      · rw [hv]
        have hrest : (c.drop 256).length % 256 ≠ 0 := by
          rw [List.length_drop]; omega
        rw [ih (c.drop 256) (by rw [List.length_drop]; omega) hrest]
        rfl
      · rw [hv]
        rfl

/-- C6 (amended): `decryptFile` never succeeds on a ciphertext whose length
is not an exact multiple of 256 — but the rejection is not an up-front
FormatError length check: the loop slices 256-byte blocks and the failure
surfaces as a DecryptionFailure when a block (at the latest, the short
trailing one) fails RSA-OAEP block decryption. -/
theorem decryptFile_not_mod256 (priv : Nat) (c : List Nat)
    (h : c.length % 256 ≠ 0) :
    decryptFile priv c = .error .decryptionFailure :=
  decryptFile_not_mod256_aux priv c.length c (le_refl _) h

/-- Witness for C6's amended theorem at the concrete one-byte ciphertext. -/
theorem decryptFile_not_mod256_witness :
    List.length [0] % 256 ≠ 0 ∧
    decryptFile 0 [0] = .error .decryptionFailure :=
  ⟨by decide, decryptFile_not_mod256 0 [0] (by decide)⟩

/-- C6 counterexample: on the one-byte ciphertext (length 1, not a multiple
of 256) `decryptFile` fails with a DecryptionFailure from the block decrypt,
not with the FormatError the claim requires; there is no length check before
per-block decryption in the source. -/
theorem decryptFile_formatError_counterexample :
    decryptFile 0 [0] = .error .decryptionFailure ∧
    decryptFile 0 [0] ≠ .error .formatError := by
  have h : decryptFile 0 [0] = .error .decryptionFailure := by
    rw [decryptFile]
    norm_num
    rfl
  exact ⟨h, by rw [h]; intro hc; cases hc⟩

/-- The record shape `StoredKeyData` of `cryptoService.ts` (lines 17–25):
id, ciphertext, salt, IV, timestamp, organization name and user id.  The
source serializes the byte arrays as arrays of 0–255 integers
(`Array.from` on write, `new Uint8Array` on read) — an identity round trip,
so the ciphertext is kept in its modelled form. -/
structure StoredKeyData where
  id : String
  encrypted : GcmCiphertext
  salt : List Nat
  iv : List Nat
  timestamp : Nat
  organizationName : String
  userId : String
  deriving DecidableEq, Repr

/-- The IndexedDB object store `userKeys` with `keyPath: id`: a key-value
map from the record id. -/
def Store : Type := String → Option StoredKeyData

/-- IndexedDB `store.get`: lookup by id; absence is `none`, not an error. -/
def Store.get (st : Store) (id : String) : Option StoredKeyData := st id

/-- IndexedDB `store.put`: upsert under the record's own `id` (the object
store's keyPath). -/
def Store.put (st : Store) (kd : StoredKeyData) : Store :=
  fun i => if i = kd.id then some kd else st i

/-- IndexedDB `store.delete`: idempotent removal. -/
def Store.del (st : Store) (id : String) : Store :=
  fun i => if i = id then none else st i

/-- The store with no records. -/
def Store.empty : Store := fun _ => none

/-- The composite id convention of `cryptoService.ts`:
`{userId}_{organizationName}_privateKey`. -/
def compositeId (userId organizationName : String) : String :=
  userId ++ "_" ++ organizationName ++ "_privateKey"

/-- Embeds `CryptoService.storeEncryptedPrivateKey` (lines 170–210): wrap
the private key under the password with fresh salt/IV and upsert the record
under the composite id.  `salt`, `iv` (randomness) and `timestamp`
(`Date.now()`) are explicit parameters. -/
def storeEncryptedPrivateKey (st : Store) (privateKey : List Nat)
    (password organizationName userId : String) (salt iv : List Nat)
    (timestamp : Nat) : Store :=
  let encryptedData := encryptPrivateKey privateKey password salt iv
  st.put
    { id := compositeId userId organizationName
      encrypted := encryptedData.encrypted
      salt := encryptedData.salt
      iv := encryptedData.iv
      timestamp := timestamp
      organizationName := organizationName
      userId := userId }

/-- Embeds `CryptoService.updateStoredKeyUserId` (lines 248–303), the
store's rekey: read the record under the temp composite id; if absent,
return `false` with the store untouched; otherwise delete the temp record
and re-put it under the confirmed composite id with the `id` and `userId`
fields rewritten.  The `password` argument is accepted and unused, exactly
as in the source. -/
def updateStoredKeyUserId (st : Store)
    (tempUserId actualUserId organizationName _password : String) :
    Bool × Store :=
  match st.get (compositeId tempUserId organizationName) with
  | none => (false, st)
  | some tempKeyData =>
    let st1 := st.del (compositeId tempUserId organizationName)
    let actualKeyData :=
      { tempKeyData with
          id := compositeId actualUserId organizationName
          userId := actualUserId }
    (true, st1.put actualKeyData)

/-- Embeds `CryptoService.loadEncryptedPrivateKey` (lines 368–425): the body
runs under a catch-all that returns `null`, so every failure — IndexedDB
unavailable (`dbOk = false`), no record under the composite id, AES-GCM
authentication failure on a wrong password or corrupted record, or a failed
PKCS8 key import — yields `none`; only a successful decrypt returns the
key. -/
def loadEncryptedPrivateKey (st : Store) (dbOk : Bool)
    (password organizationName userId : String) : Option (List Nat) :=
  if ¬ dbOk then none
  else
    match st.get (compositeId userId organizationName) with
    | none => none
    | some keyData =>
      match decryptPrivateKey
          ⟨keyData.encrypted, keyData.salt, keyData.iv⟩ password with
      | .error _ => none
      | .ok decrypted => some decrypted

/-- C7: rekey is all-or-nothing.  If a record exists under the temp
composite id, `updateStoredKeyUserId` reports success, the record —
with its `id` and `userId` fields rewritten to the confirmed identity, all
key material unchanged — is observable under the new id, and the old id
reads not-found.  If no record exists under the temp id, the call reports
failure and returns the store unchanged; no partial write. -/
theorem updateStoredKeyUserId_atomic (st : Store)
    (tempUserId actualUserId organizationName password : String)
    (hne : compositeId tempUserId organizationName ≠
      compositeId actualUserId organizationName) :
    (∀ kd, st.get (compositeId tempUserId organizationName) = some kd →
      (updateStoredKeyUserId st tempUserId actualUserId organizationName
          password).1 = true ∧
      (updateStoredKeyUserId st tempUserId actualUserId organizationName
          password).2.get (compositeId actualUserId organizationName) =
        some { kd with
                id := compositeId actualUserId organizationName
                userId := actualUserId } ∧
      (updateStoredKeyUserId st tempUserId actualUserId organizationName
          password).2.get (compositeId tempUserId organizationName) =
        none) ∧
    (st.get (compositeId tempUserId organizationName) = none →
      updateStoredKeyUserId st tempUserId actualUserId organizationName
        password = (false, st)) := by
  constructor
  · intro kd hkd
    simp only [Store.get] at hkd
    refine ⟨?_, ?_, ?_⟩ <;>
      simp [updateStoredKeyUserId, Store.get, hkd, Store.put, Store.del, hne]
  · intro hnone
    simp only [Store.get] at hnone
    simp [updateStoredKeyUserId, Store.get, hnone]

/-- A concrete stored record used by store-level witnesses. -/
def sampleRecord : StoredKeyData :=
  { id := compositeId "temp_user_id" "acme"
    encrypted := aesGcmEncrypt (deriveKeyFromPassword "pw" [3]) [4] [9, 9]
    salt := [3]
    iv := [4]
    timestamp := 0
    organizationName := "acme"
    userId := "temp_user_id" }

/-- Witness for C7 on a one-record store and on the empty store. -/
theorem updateStoredKeyUserId_atomic_witness :
    compositeId "temp_user_id" "acme" ≠ compositeId "u1" "acme" ∧
    (Store.empty.put sampleRecord).get (compositeId "temp_user_id" "acme") =
      some sampleRecord ∧
    (updateStoredKeyUserId (Store.empty.put sampleRecord) "temp_user_id" "u1"
        "acme" "pw").2.get (compositeId "u1" "acme") =
      some { sampleRecord with id := compositeId "u1" "acme", userId := "u1" } ∧
    (updateStoredKeyUserId (Store.empty.put sampleRecord) "temp_user_id" "u1"
        "acme" "pw").2.get (compositeId "temp_user_id" "acme") = none ∧
    Store.empty.get (compositeId "temp_user_id" "acme") = none ∧
    updateStoredKeyUserId Store.empty "temp_user_id" "u1" "acme" "pw" =
      (false, Store.empty) := by
  have hne : compositeId "temp_user_id" "acme" ≠ compositeId "u1" "acme" := by
    decide
  have hget : (Store.empty.put sampleRecord).get
      (compositeId "temp_user_id" "acme") = some sampleRecord := by
    simp [Store.get, Store.put, Store.empty, sampleRecord]
  have h1 := (updateStoredKeyUserId_atomic (Store.empty.put sampleRecord)
    "temp_user_id" "u1" "acme" "pw" hne).1 sampleRecord hget
  have h2 := (updateStoredKeyUserId_atomic Store.empty
    "temp_user_id" "u1" "acme" "pw" hne).2 (by simp [Store.get, Store.empty])
  exact ⟨hne, hget, h1.2.1, h1.2.2, by simp [Store.get, Store.empty], h2⟩

/-- Terminal outcomes of the Key Registration Protocol run embedded from
`handleSubmit` in `CreateAccount.tsx`. -/
inductive RegistrationOutcome where
  | accountFailed
  | keyUploadFailed
  | completed
  deriving DecidableEq, Repr

/-- Embeds the key-registration portion of `handleSubmit` in
`CreateAccount.tsx` (the flow using `authService` and `cryptoService`):
generate the pair and export the PEM (no store writes), register the account
(`authService.register`; on `success: false` throw — nothing persisted),
upload the public key (`authService.uploadPublicKey`; on failure throw —
still nothing persisted), and only then wrap and store the private key under
the server-confirmed user id (`data.data.userId`).  The outcomes of the two
external calls are the Booleans `registerSuccess` and `uploadSuccess`; the
wrap randomness and timestamp are explicit parameters. -/
def registrationRun (st : Store) (registerSuccess uploadSuccess : Bool)
    (privateKey : List Nat) (password organizationName confirmedUserId : String)
    (salt iv : List Nat) (timestamp : Nat) : RegistrationOutcome × Store :=
  if ¬ registerSuccess then (.accountFailed, st)
  else if ¬ uploadSuccess then (.keyUploadFailed, st)
  else (.completed,
    storeEncryptedPrivateKey st privateKey password organizationName
      confirmedUserId salt iv timestamp)

/-- C1: registration ordering.  When the public-key upload fails, the run
leaves the Encrypted Key Store exactly as it was — so no record for the
user/organization is ever observable via `get` that was not there before —
and the run does not complete; conversely the run completes (reaching the
store step) only when both the account registration and the upload
succeeded. -/
theorem registrationRun_upload_failure_no_store (st : Store)
    (registerSuccess uploadSuccess : Bool) (privateKey : List Nat)
    (password organizationName confirmedUserId : String)
    (salt iv : List Nat) (timestamp : Nat) :
    (registrationRun st registerSuccess false privateKey password
        organizationName confirmedUserId salt iv timestamp).2 = st ∧
    (∀ id, (registrationRun st registerSuccess false privateKey password
        organizationName confirmedUserId salt iv timestamp).2.get id =
      st.get id) ∧
    ((registrationRun st registerSuccess uploadSuccess privateKey password
        organizationName confirmedUserId salt iv timestamp).1 = .completed ↔
      registerSuccess = true ∧ uploadSuccess = true) := by
  refine ⟨?_, ?_, ?_⟩
  · cases registerSuccess <;> simp [registrationRun]
  · intro id
    cases registerSuccess <;> simp [registrationRun]
  · cases registerSuccess <;> cases uploadSuccess <;>
      simp [registrationRun]

/-- C10: `loadEncryptedPrivateKey` is total (`none` instead of a thrown
error) and returns a key exactly when storage is available, a record exists
under the composite id `{userId}_{organizationName}_privateKey`, and the
supplied password re-derives the very key the record's ciphertext was
wrapped under (with the record's own IV) — i.e. the password used to wrap
it.  Every other case — storage failure, no record, wrong password,
corrupted record — is `none`, indistinguishable from one another through
this interface.  Second conjunct: loading right after
`storeEncryptedPrivateKey` succeeds exactly for the wrapping password. -/
theorem loadEncryptedPrivateKey_spec (st : Store) (dbOk : Bool)
    (password p2 organizationName userId : String) (k : List Nat)
    (salt iv : List Nat) (timestamp : Nat) :
    (loadEncryptedPrivateKey st dbOk password organizationName userId =
        some k ↔
      dbOk = true ∧
        ∃ kd, st.get (compositeId userId organizationName) = some kd ∧
          kd.encrypted =
            aesGcmEncrypt (deriveKeyFromPassword password kd.salt) kd.iv k) ∧
    (loadEncryptedPrivateKey
        (storeEncryptedPrivateKey st k password organizationName userId salt
          iv timestamp) true p2 organizationName userId = some k ↔
      p2 = password) := by
  constructor
  · cases dbOk
    · simp [loadEncryptedPrivateKey]
    · simp only [loadEncryptedPrivateKey, Bool.not_true, if_false]
      cases hget : st.get (compositeId userId organizationName) with
      | none => simp [hget]
      | some kd =>
        simp only [hget, true_and]
        cases hdec : decryptPrivateKey ⟨kd.encrypted, kd.salt, kd.iv⟩
            password with
        | error e =>
          simp only [decryptPrivateKey, aesGcmDecrypt, importPkcs8,
            Bind.bind, Except.bind] at hdec
          constructor
          · intro hc; cases hc
          · rintro ⟨kd', hkd', henc⟩
            injection hkd' with hkd'
            subst hkd'
            rw [henc] at hdec
            simp [aesGcmEncrypt] at hdec
        | ok v =>
          simp only [decryptPrivateKey, aesGcmDecrypt, importPkcs8,
            Bind.bind, Except.bind] at hdec
          by_cases hcnd : kd.encrypted.key =
              deriveKeyFromPassword password kd.salt ∧ kd.encrypted.iv = kd.iv
          · rw [if_pos hcnd] at hdec
            injection hdec with hdec
            subst hdec
            constructor
            · intro hv
              injection hv with hv
              refine ⟨kd, rfl, ?_⟩
              calc kd.encrypted
                  = (⟨kd.encrypted.key, kd.encrypted.iv, kd.encrypted.data⟩ :
                      GcmCiphertext) := rfl
                _ = aesGcmEncrypt (deriveKeyFromPassword password kd.salt)
                      kd.iv k := by
                    rw [hcnd.1, hcnd.2, hv]
                    rfl
            · rintro ⟨kd', hkd', henc⟩
              injection hkd' with hkd'
              subst hkd'
              rw [henc]
              simp [aesGcmEncrypt]
          · rw [if_neg hcnd] at hdec
            cases hdec
  · simp only [loadEncryptedPrivateKey, storeEncryptedPrivateKey,
      encryptPrivateKey, exportPkcs8, Store.get, Store.put,
      Bool.not_true, if_false]
    simp only [decryptPrivateKey, aesGcmDecrypt, aesGcmEncrypt, importPkcs8,
      deriveKeyFromPassword, Bind.bind, Except.bind]
    by_cases hp : p2 = password
    · subst hp
      simp
    · have hp2 : password ≠ p2 := fun hcon => hp hcon.symm
      simp [hp, hp2]

/-- The base64 alphabet, in index order. -/
def base64Chars : List Char :=
  "ABCDEFGHIJKLMNOPQRSTUVWXYZabcdefghijklmnopqrstuvwxyz0123456789+/".toList

/-- The base64 digit for a 6-bit value. -/
def base64Char (n : Nat) : Char := base64Chars.getD n 'A'

/-- Models `btoa` applied to the byte-per-character binary string that
`arrayBufferToBase64` builds (cryptoService.ts lines 158–165): standard
base64 of the byte sequence, with `=` padding. -/
def base64EncodeBytes : List Nat → List Char
  | [] => []
  | [b1] => [base64Char (b1 / 4), base64Char (b1 % 4 * 16), '=', '=']
  | [b1, b2] =>
    [base64Char (b1 / 4), base64Char (b1 % 4 * 16 + b2 / 16),
      base64Char (b2 % 16 * 4), '=']
  | b1 :: b2 :: b3 :: rest =>
    base64Char (b1 / 4) :: base64Char (b1 % 4 * 16 + b2 / 16) ::
      base64Char (b2 % 16 * 4 + b3 / 64) :: base64Char (b3 % 64) ::
        base64EncodeBytes rest

/-- Successive runs of at most `n` elements, in order.  (The `n = 0` guard
is never exercised: the source only chunks at 64.) -/
def chunkEvery (n : Nat) (l : List Char) : List (List Char) :=
  if hl : l = [] then []
  else if hn : n = 0 then [l]
  else l.take n :: chunkEvery n (l.drop n)
termination_by l.length
decreasing_by
  simp only [List.length_drop]
  have := List.length_pos.mpr hl
  omega

/-- Models `exportedAsString.match(/.{1,64}/g)?.join('\n') ||
exportedAsString` (cryptoService.ts line 145): the global regex yields the
successive runs of at most 64 characters, joined with newlines; on the
empty string the match is null and the fallback returns the empty string —
which the empty chunk list also yields. -/
def wrap64 (s : List Char) : String :=
  String.intercalate "\n" ((chunkEvery 64 s).map (fun cs => String.mk cs))

/-- Embeds `CryptoService.exportPublicKeyAsPem` (lines 139–153): a public
key is identified with its SPKI byte encoding (`exportKey (spki)` is
deterministic per key); the bytes are base64-encoded, wrapped at 64
characters per line, and framed by the literal BEGIN/END markers. -/
def exportPublicKeyAsPem (spki : List Nat) : String :=
  let exportedAsString := base64EncodeBytes spki
  let formattedBase64 := wrap64 exportedAsString
  "-----BEGIN PUBLIC KEY-----\n" ++ formattedBase64 ++
    "\n-----END PUBLIC KEY-----"

/-- The PEM text as §6 of the spec words it: the BEGIN marker, a newline,
the base64 of the SPKI bytes broken into lines of at most 64 characters
joined by newlines, a newline, and the END marker.  Stated independently to
compare against the source-derived `exportPublicKeyAsPem`. -/
def pemFormatOfSpec (spki : List Nat) : String :=
  "-----BEGIN PUBLIC KEY-----\n" ++
    String.intercalate "\n"
      ((chunkEvery 64 (base64EncodeBytes spki)).map (fun cs => String.mk cs)) ++
    "\n-----END PUBLIC KEY-----"

/-- Chunking at a positive width and rejoining recovers the original
sequence. -/
theorem chunkEvery_join (k : Nat) (hk : k ≠ 0) :
    ∀ (n : Nat) (l : List Char), l.length ≤ n → (chunkEvery k l).flatten = l := by
  intro n
  induction n with
  | zero =>
    intro l hl
    have hnil : l = [] := List.eq_nil_of_length_eq_zero (Nat.le_zero.mp hl)
    subst hnil
    simp [chunkEvery]
  | succ n ih =>
    intro l hl
    by_cases h : l = []
    · subst h; simp [chunkEvery]
    · have hpos : 0 < l.length := List.length_pos.mpr h
      rw [chunkEvery, dif_neg h, dif_neg hk]
      simp only [List.flatten]
      rw [ih (l.drop k) (by rw [List.length_drop]; omega)]
      exact List.take_append_drop k l

/-- Every chunk produced at a positive width has at most that many
elements. -/
theorem chunkEvery_mem_length (k : Nat) (hk : k ≠ 0) :
    ∀ (n : Nat) (l : List Char), l.length ≤ n →
      ∀ c ∈ chunkEvery k l, c.length ≤ k := by
  intro n
  induction n with
  | zero =>
    intro l hl c hc
    have hnil : l = [] := List.eq_nil_of_length_eq_zero (Nat.le_zero.mp hl)
    subst hnil
    simp [chunkEvery] at hc
  | succ n ih =>
    intro l hl c hc
    by_cases h : l = []
    · subst h; simp [chunkEvery] at hc
    · have hpos : 0 < l.length := List.length_pos.mpr h
      rw [chunkEvery, dif_neg h, dif_neg hk] at hc
      rcases List.mem_cons.mp hc with hceq | hcm
      · subst hceq
        rw [List.length_take]
        omega
      · exact ih (l.drop k) (by rw [List.length_drop]; omega) c hcm

/-- C8: exporting a public key to PEM is a pure, deterministic function of
the key's SPKI bytes, and the produced text is exactly the spec's format:
BEGIN marker, newline, the base64 of the SPKI bytes wrapped at 64
characters per line, newline, END marker; the wrapped lines rejoin to the
full base64 text and none exceeds 64 characters — so equal keys yield
byte-identical PEM text and the fingerprint (hash of the text) is
stable. -/
theorem exportPublicKeyAsPem_spec (spki spki2 : List Nat) :
    exportPublicKeyAsPem spki = pemFormatOfSpec spki ∧
    (chunkEvery 64 (base64EncodeBytes spki)).flatten = base64EncodeBytes spki ∧
    (∀ c ∈ chunkEvery 64 (base64EncodeBytes spki), c.length ≤ 64) ∧
    (spki2 = spki → exportPublicKeyAsPem spki2 = exportPublicKeyAsPem spki) := by
  refine ⟨rfl, ?_, ?_, ?_⟩
  · exact chunkEvery_join 64 (by omega) (base64EncodeBytes spki).length _
      (le_refl _)
  · exact chunkEvery_mem_length 64 (by omega)
      (base64EncodeBytes spki).length _ (le_refl _)
  · intro h
    rw [h]

/-- Witness for C8 at the concrete SPKI byte list [1, 2, 3]. -/
theorem exportPublicKeyAsPem_spec_witness :
    exportPublicKeyAsPem [1, 2, 3] = pemFormatOfSpec [1, 2, 3] ∧
    (chunkEvery 64 (base64EncodeBytes [1, 2, 3])).flatten =
      base64EncodeBytes [1, 2, 3] ∧
    (∀ c ∈ chunkEvery 64 (base64EncodeBytes [1, 2, 3]), c.length ≤ 64) ∧
    ([1, 2, 3] = [1, 2, 3] →
      exportPublicKeyAsPem [1, 2, 3] = exportPublicKeyAsPem [1, 2, 3]) :=
  exportPublicKeyAsPem_spec [1, 2, 3] [1, 2, 3]

/-- A row of the `Organization` collection, as the key-upload handler uses
it: a name and an object id. -/
structure Organization where
  name : String
  oid : String
  deriving DecidableEq, Repr

/-- A row of the `User` collection, as the key-upload handler uses it. -/
structure UserRec where
  uid : String
  organization : String
  username : String
  isActive : Bool
  deriving DecidableEq, Repr

/-- A row of the `PublicKey` collection (`PublicKey.js`), restricted to the
fields the upload handler reads or writes.  `keyFingerprint` is set by the
schema's pre-save middleware to the SHA-256 of the PEM text. -/
structure PublicKeyRecord where
  organization : String
  user : String
  organizationName : String
  username : String
  publicKeyPem : String
  keyFingerprint : String
  keyType : String
  keySize : Nat
  isActive : Bool
  deriving DecidableEq, Repr

/-- The server database as the upload handler sees it. -/
structure ServerState where
  organizations : List Organization
  users : List UserRec
  keys : List PublicKeyRecord
  deriving DecidableEq, Repr

/-- The authenticated upload request: `req.user.id` from the JWT and the
body fields of `POST /api/keys/public`. -/
structure UploadRequest where
  userId : String
  publicKeyPem : String
  organizationName : String
  keyType : String
  keySize : Nat
  deriving DecidableEq, Repr

/-- Whether `needle` occurs at the head of `haystack`. -/
def matchesAt (needle haystack : List Char) : Bool :=
  match needle, haystack with
  | [], _ => true
  | _ :: _, [] => false
  | a :: as, b :: bs => a = b && matchesAt as bs

/-- JavaScript `String.prototype.includes`, over character lists. -/
def containsSeq (needle : List Char) : List Char → Bool
  | [] => matchesAt needle []
  | b :: bs => matchesAt needle (b :: bs) || containsSeq needle bs

/-- The whitespace characters JavaScript's `trim` strips, restricted to the
ones that can occur here. -/
def isJsWhitespace (c : Char) : Bool :=
  c = ' ' || c = '\t' || c = '\n' || c = '\r'

/-- JavaScript `String.prototype.trim`: strip whitespace from both ends. -/
def jsTrim (s : String) : String :=
  String.mk
    (((s.toList.dropWhile isJsWhitespace).reverse.dropWhile
      isJsWhitespace).reverse)

/-- Embeds `validateKeyUpload` (`utils/validation.js` lines 258–301):
the trimmed PEM must contain both BEGIN and END markers and have length in
[400, 10000], and the organization name must be nonempty after trimming;
`isValid` is the absence of any error. -/
def validateKeyUpload (publicKeyPem organizationName : String) : Bool :=
  let pem := jsTrim publicKeyPem
  containsSeq "-----BEGIN PUBLIC KEY-----".toList pem.toList &&
  containsSeq "-----END PUBLIC KEY-----".toList pem.toList &&
  decide (400 ≤ pem.length) &&
  decide (pem.length ≤ 10000) &&
  decide (0 < (jsTrim organizationName).length)

/-- The `PublicKey` schema's pre-save fingerprint: the SHA-256 hex digest of
the PEM text, modelled as the ideal collision-free hash of the text. -/
def keyFingerprintOf (pem : String) : String := pem

/-- Embeds the `POST /public` handler of `keyRouter.js` (lines 16–135):
validate the body (400), look up the organization by trimmed name (400 if
absent), check the authenticated user is an active member (403), reject if
an active key already exists for the (organization, user) pair (409),
otherwise save the new record — the save fails on the unique
`keyFingerprint` index, which the catch-all surfaces as 500 — and answer
201 with the record inserted. -/
def uploadPublicKeyHandler (st : ServerState) (req : UploadRequest) :
    Nat × ServerState :=
  if validateKeyUpload req.publicKeyPem req.organizationName = false then
    (400, st)
  else
    match st.organizations.find?
        (fun o => o.name == jsTrim req.organizationName) with
    | none => (400, st)
    | some org =>
      match st.users.find?
          (fun u => u.uid == req.userId && u.organization == org.oid &&
            u.isActive) with
      | none => (403, st)
      | some user =>
        if (st.keys.find?
            (fun k => k.user == req.userId && k.organization == org.oid &&
              k.isActive)).isSome = true then
          (409, st)
        else
          let newPublicKey : PublicKeyRecord :=
            { organization := org.oid
              user := req.userId
              organizationName := org.name
              username := user.username
              publicKeyPem := jsTrim req.publicKeyPem
              keyFingerprint := keyFingerprintOf (jsTrim req.publicKeyPem)
              keyType := req.keyType
              keySize := req.keySize
              isActive := true }
          if (st.keys.find?
              (fun k => k.keyFingerprint == newPublicKey.keyFingerprint)).isSome
              = true then
            (500, st)
          else (201, { st with keys := newPublicKey :: st.keys })

/-- The externally enforced invariant of `PublicKey.js` (the unique compound
index on (organization, user, isActive)): at most one active key per
(organization, user) pair. -/
def AtMostOneActivePerPair (keys : List PublicKeyRecord) : Prop :=
  ∀ k1 ∈ keys, ∀ k2 ∈ keys, k1.isActive = true → k2.isActive = true →
    k1.organization = k2.organization → k1.user = k2.user → k1 = k2

/-- C9: the upload handler (1) answers only with the codes 201, 400, 403,
409 and 500; (2) on a request that passes validation, organization lookup
and membership but hits an existing active key for the (organization, user)
pair, answers 409 and leaves the database unchanged; and (3) preserves the
at-most-one-active-key-per-pair invariant. -/
theorem uploadPublicKeyHandler_spec :
    (∀ (st : ServerState) (req : UploadRequest),
      (uploadPublicKeyHandler st req).1 = 201 ∨
      (uploadPublicKeyHandler st req).1 = 400 ∨
      (uploadPublicKeyHandler st req).1 = 403 ∨
      (uploadPublicKeyHandler st req).1 = 409 ∨
      (uploadPublicKeyHandler st req).1 = 500) ∧
    (∀ (st : ServerState) (req : UploadRequest) (org : Organization)
        (user : UserRec),
      validateKeyUpload req.publicKeyPem req.organizationName = true →
      st.organizations.find? (fun o => o.name == jsTrim req.organizationName) =
        some org →
      st.users.find?
          (fun u => u.uid == req.userId && u.organization == org.oid &&
            u.isActive) = some user →
      (st.keys.find?
          (fun k => k.user == req.userId && k.organization == org.oid &&
            k.isActive)).isSome = true →
      uploadPublicKeyHandler st req = (409, st)) ∧
    (∀ (st : ServerState) (req : UploadRequest),
      AtMostOneActivePerPair st.keys →
      AtMostOneActivePerPair (uploadPublicKeyHandler st req).2.keys) := by
  refine ⟨?_, ?_, ?_⟩
  · intro st req
    unfold uploadPublicKeyHandler
    split
    · simp
    · split
      · simp
      · split
        · simp
        · split
          · simp
          · dsimp only
            split
            · simp
            · simp
  · intro st req org user hv horg huser hdup
    simp [uploadPublicKeyHandler, hv, horg, huser, hdup]
  · intro st req hinv
    unfold uploadPublicKeyHandler
    split
    · exact hinv
    · split
      · exact hinv
      · split
        · exact hinv
        · split
          · exact hinv
          · dsimp only
            split
            · exact hinv
            · rename_i org user hv horg huser hnodup hnofp
              intro k1 hk1 k2 hk2 ha1 ha2 hsameorg hsameuser
              have hnone : st.keys.find?
                  (fun k => k.user == req.userId && k.organization == org.oid &&
                    k.isActive) = none := by
                rcases hfind : st.keys.find?
                    (fun k => k.user == req.userId &&
                      k.organization == org.oid && k.isActive) with _ | v
                · exact hfind
                · rw [hfind] at hnodup
                  simp at hnodup
              have hnotin : ∀ k ∈ st.keys,
                  ¬(k.user == req.userId && k.organization == org.oid &&
                    k.isActive) = true := by
                intro k hk
                exact List.find?_eq_none.mp hnone k hk
              dsimp only at hk1 hk2
              simp only [List.mem_cons] at hk1 hk2
              rcases hk1 with rfl | hm1
              · rcases hk2 with rfl | hm2
                · rfl
                · exfalso
                  apply hnotin k2 hm2
                  simp only [Bool.and_eq_true, beq_iff_eq]
                  exact ⟨⟨by rw [← hsameuser], by rw [← hsameorg]⟩, ha2⟩
              · rcases hk2 with rfl | hm2
                · exfalso
                  apply hnotin k1 hm1
                  simp only [Bool.and_eq_true, beq_iff_eq]
                  exact ⟨⟨by rw [hsameuser], by rw [hsameorg]⟩, ha1⟩
                · exact hinv k1 hm1 k2 hm2 ha1 ha2 hsameorg hsameuser

/-- A syntactically valid sample PEM: the BEGIN/END markers around 360
base64-alphabet characters, long enough to pass the length validator. -/
def samplePem : String :=
  "-----BEGIN PUBLIC KEY-----" ++ String.mk (List.replicate 360 'A') ++
    "-----END PUBLIC KEY-----"

/-- A server database with one organization, one active member of it, and
one active public key already registered for that member. -/
def sampleServerState : ServerState :=
  { organizations := [{ name := "acme", oid := "org1" }]
    users := [{ uid := "u1", organization := "org1", username := "alice",
                isActive := true }]
    keys := [{ organization := "org1", user := "u1",
               organizationName := "acme", username := "alice",
               publicKeyPem := samplePem,
               keyFingerprint := keyFingerprintOf samplePem,
               keyType := "RSA-OAEP", keySize := 2048, isActive := true }] }

/-- A well-formed upload request from the member who already holds an
active key. -/
def sampleUploadRequest : UploadRequest :=
  { userId := "u1", publicKeyPem := samplePem, organizationName := "acme",
    keyType := "RSA-OAEP", keySize := 2048 }

set_option maxRecDepth 8000 in
/-- Witness for C9: the sample request passes validation, yet because an
active key already exists for (acme, u1) the handler answers 409 and the
database is unchanged. -/
theorem uploadPublicKeyHandler_spec_witness :
    validateKeyUpload sampleUploadRequest.publicKeyPem
      sampleUploadRequest.organizationName = true ∧
    uploadPublicKeyHandler sampleServerState sampleUploadRequest =
      (409, sampleServerState) := by
  have hv : validateKeyUpload sampleUploadRequest.publicKeyPem
      sampleUploadRequest.organizationName = true := by decide
  refine ⟨hv, uploadPublicKeyHandler_spec.2.1 sampleServerState
    sampleUploadRequest { name := "acme", oid := "org1" }
    { uid := "u1", organization := "org1", username := "alice",
      isActive := true } hv ?_ ?_ ?_⟩
  · decide
  · decide
  · decide

end SafeCrypto
